import Mathlib

/-!
Verification development for the tool-registry and schema-conversion core of
the n8n MCP agent toolkit (src/toolConfiguration/toolSchema.ts).

The embedding models:
* JSON-like runtime values (`Json`) that the code passes through untouched
  (defaults, example payloads, metadata) and that the converter produces;
* the typed parameter tree (`Param`) corresponding to the zod-inferred
  parameter union (string/number/boolean/array/object), where the recursive
  positions (`items` of an array, `properties` values of an object) carry the
  union type that includes the bare base-parameter form — hence `items` is
  optional in the model, matching the zod output type;
* the tool definition (`Tool`), the zod validation of an already-typed tool
  value (`validateTool`), the recursive converter (`toolToJsonSchema`), and
  the registry operations of class `ToolRegistry`.

JS numbers are modelled as rationals (`Rat`): the code performs no arithmetic
on them, only pass-through and zod's `.int()` integrality check.
A thrown JS exception is modelled as `Except.error` (for typed errors) or as
`Option.none` (for the converter's TypeError on a missing `items`).
-/

mutual
/-- JSON-like values, mutually with array and object spines so that all
recursive functions are structural. -/
inductive Json where
  | null : Json
  | bool (b : Bool) : Json
  | num (q : Rat) : Json
  | str (s : String) : Json
  | arr (elems : JArr) : Json
  | obj (fields : JObj) : Json

inductive JArr where
  | nil : JArr
  | cons (hd : Json) (tl : JArr) : JArr

inductive JObj where
  | nil : JObj
  | cons (key : String) (val : Json) (tl : JObj) : JObj
end

/-- String-parameter `format` enumeration (zod `stringParameterSchema.format`). -/
inductive SFormat where
  | date | dateTime | email | uri | regex | text
deriving DecidableEq

/-- Number-parameter `format` enumeration (zod `numberParameterSchema.format`). -/
inductive NFormat where
  | float | double | int32 | int64
deriving DecidableEq

mutual
/-- The typed parameter tree: the zod-inferred union of
`toolParameterSchema | stringParameterSchema | ... | objectParameterSchema`.
The base form (a record with only name/description/type/required, as produced
for nested positions by `toolParameterSchema` in the union) is represented by
the matching variant with every variant-specific field `none`; for an array
this means `items = none` (the base record of type `array` has no `items`). -/
inductive Param where
  | str (name description : String) (required : Bool)
        (format : Option SFormat) (minLength maxLength : Option Rat)
        (pattern : Option String) (enum : Option (List String))
        (default : Option String) : Param
  | num (name description : String) (required : Bool)
        (minimum maximum multipleOf : Option Rat) (format : Option NFormat)
        (default : Option Rat) : Param
  | bool (name description : String) (required : Bool)
        (default : Option Bool) : Param
  | arr (name description : String) (required : Bool)
        (items : Option Param) (minItems maxItems : Option Rat)
        (uniqueItems : Option Bool) (default : Option JArr) : Param
  | obj (name description : String) (required : Bool)
        (properties : Option Props) (requiredProps : Option (List String))
        (additionalProperties : Option Bool) (default : Option JObj) : Param

/-- Spine of an object parameter's `properties` record / a tool's `parameters`
record (a JS object: ordered association list with unique keys). -/
inductive Props where
  | nil : Props
  | cons (key : String) (val : Param) (tl : Props) : Props
end

/-- One entry of a tool's `examples` array. -/
structure ToolExample where
  input : JObj
  output : Json
  description : Option String

/-- The typed tool definition (z.infer of `toolSchema`). -/
structure Tool where
  name : String
  description : String
  parameters : Option Props
  requiredParameters : Option (List String)
  returns : Option Param
  tags : Option (List String)
  examples : Option (List ToolExample)
  metadata : Option JObj

/-! ## JObj helpers (JS object literal construction and key lookup) -/

/-- Concatenation of object fragments, modelling JS object spread
(all our spreads use pairwise-distinct keys). -/
def JObj.append : JObj → JObj → JObj
  | .nil, o => o
  | .cons k v tl, o => .cons k v (JObj.append tl o)

/-- Does the object have the key? (`key in obj` for a JS object.) -/
def JObj.hasKey : JObj → String → Bool
  | .nil, _ => false
  | .cons k _ tl, key => if k = key then true else JObj.hasKey tl key

/-- First binding of a key in an object. -/
def JObj.find : JObj → String → Option Json
  | .nil, _ => none
  | .cons k v tl, key => if k = key then some v else JObj.find tl key

/-- The ordered key list of a JSON object (empty for non-objects). -/
def JObj.keys : JObj → List String
  | .nil => []
  | .cons k _ tl => k :: JObj.keys tl

def Json.hasKey : Json → String → Bool
  | .obj o, key => o.hasKey key
  | _, _ => false

def Json.find : Json → String → Option Json
  | .obj o, key => o.find key
  | _, _ => none

def Json.keys : Json → List String
  | .obj o => o.keys
  | _ => []

/-- Build a JSON array from a list of values. -/
def JArr.ofList : List Json → JArr
  | [] => .nil
  | j :: tl => .cons j (JArr.ofList tl)

/-- A JSON array of strings (how a `string[]` value crosses into the output). -/
def jsonStrList (l : List String) : Json :=
  .arr (JArr.ofList (l.map Json.str))

def sformatName : SFormat → String
  | .date => "date"
  | .dateTime => "date-time"
  | .email => "email"
  | .uri => "uri"
  | .regex => "regex"
  | .text => "text"

def nformatName : NFormat → String
  | .float => "float"
  | .double => "double"
  | .int32 => "int32"
  | .int64 => "int64"

/-- `...(o !== undefined && [k]: f o)` — spread a single optional field,
present exactly when the option is `some`. -/
def jopt (o : Option α) (key : String) (f : α → Json) : JObj :=
  match o with
  | none => .nil
  | some a => .cons key (f a) .nil

/-- `...(s && [k]: s)` for an optional string field — JS truthiness: the field
is also omitted when the string is present but empty. -/
def joptTruthyStr (o : Option String) (key : String) : JObj :=
  match o with
  | none => .nil
  | some s => if s = "" then .nil else .cons key (.str s) .nil

/-- Chain several spread fragments into one object literal. -/
def JObj.concatList : List JObj → JObj
  | [] => .nil
  | o :: tl => o.append (JObj.concatList tl)

/-! ## The converter `toolToJsonSchema` (src/toolConfiguration/toolSchema.ts 155-252)

`parameterToJsonSchema(param, isRequired)` never reads its `isRequired`
argument, so the model drops it.  A validated nested array parameter has been
stripped of its `items` by the union parse; on it the real converter throws
`TypeError` (it recurses into `undefined`): modelled as `none`. -/

mutual
/-- The recursive helper `parameterToJsonSchema` of `toolToJsonSchema`. -/
def parameterToJsonSchema : Param → Option Json
  | .str _ d _ format minLength maxLength pattern en default =>
      some (.obj (JObj.concatList
        [ .cons "type" (.str "string") (.cons "description" (.str d) .nil),
          jopt format "format" (fun f => .str (sformatName f)),
          jopt minLength "minLength" Json.num,
          jopt maxLength "maxLength" Json.num,
          joptTruthyStr pattern "pattern",
          jopt en "enum" jsonStrList,
          jopt default "default" Json.str ]))
  | .num _ d _ minimum maximum multipleOf format default =>
      some (.obj (JObj.concatList
        [ .cons "type" (.str "number") (.cons "description" (.str d) .nil),
          jopt minimum "minimum" Json.num,
          jopt maximum "maximum" Json.num,
          jopt multipleOf "multipleOf" Json.num,
          jopt format "format" (fun f => .str (nformatName f)),
          jopt default "default" Json.num ]))
  | .bool _ d _ default =>
      some (.obj (JObj.concatList
        [ .cons "type" (.str "boolean") (.cons "description" (.str d) .nil),
          jopt default "default" Json.bool ]))
  | .arr _ d _ items minItems maxItems uniqueItems default =>
      match items with
      | none => none
      | some it =>
        match parameterToJsonSchema it with
        | none => none
        | some itemsJson =>
          some (.obj (JObj.concatList
            [ .cons "type" (.str "array") (.cons "description" (.str d) .nil),
              .cons "items" itemsJson .nil,
              jopt minItems "minItems" Json.num,
              jopt maxItems "maxItems" Json.num,
              jopt uniqueItems "uniqueItems" Json.bool,
              jopt default "default" Json.arr ]))
  | .obj _ d _ properties requiredProps additionalProperties default =>
      match propsOptToJsonSchema properties with
      | none => none
      | some propsJson =>
        some (.obj (JObj.concatList
          [ .cons "type" (.str "object") (.cons "description" (.str d) .nil),
            .cons "properties" (.obj propsJson) .nil,
            jopt requiredProps "required" jsonStrList,
            jopt additionalProperties "additionalProperties" Json.bool,
            jopt default "default" Json.obj ]))

/-- Conversion of a `properties` record: each entry converted in order. -/
def propsToJsonSchema : Props → Option JObj
  | .nil => some .nil
  | .cons k v tl =>
      match parameterToJsonSchema v with
      | none => none
      | some vj =>
        match propsToJsonSchema tl with
        | none => none
        | some tlj => some (.cons k vj tlj)

/-- An absent `properties`/`parameters` record converts to the empty object
(`properties` is initialised to `\x7b\x7d` before the loop); a present one is
converted entry by entry. -/
def propsOptToJsonSchema : Option Props → Option JObj
  | none => some JObj.nil
  | some ps => propsToJsonSchema ps
end

/-- `toolToJsonSchema` (lines 229-251): builds the outer JSON-schema object;
`required` is `tool.requiredParameters ?? []` verbatim, `properties` converts
each entry of `tool.parameters`, `returns` is attached exactly when present.
`none` models the TypeError thrown when a (nested, stripped) array parameter
without `items` is converted. -/
def toolToJsonSchema (tool : Tool) : Option Json :=
  let required := tool.requiredParameters.getD []
  match propsOptToJsonSchema tool.parameters with
  | none => none
  | some properties =>
    let parametersJson : Json := .obj
      (.cons "type" (.str "object")
        (.cons "properties" (.obj properties)
          (.cons "required" (jsonStrList required) .nil)))
    match tool.returns with
    | none =>
        some (.obj
          (.cons "name" (.str tool.name)
            (.cons "description" (.str tool.description)
              (.cons "parameters" parametersJson .nil))))
    | some r =>
        match parameterToJsonSchema r with
        | none => none
        | some returnsJson =>
            some (.obj
              (.cons "name" (.str tool.name)
                (.cons "description" (.str tool.description)
                  (.cons "parameters" parametersJson
                    (.cons "returns" returnsJson .nil)))))

/-! ## Validation (`validateTool`, zod schemas at lines 10-149)

The zod schemas are modelled on already-typed values (the registry's
`registerTool(tool: Tool)` re-parses a value of the inferred `Tool` type, and
every claim instantiates `validateTool` at tool-shaped values).  Semantics of
the source schemas on that domain:

* `z.string().min(1)` fails exactly on the empty string;
* `z.number().int()` fails exactly on a non-integral number;
* a nested parameter (array `items`, object `properties` values) is parsed by
  the union `toolParameterSchema.or(stringParameterSchema.or(...))`; zod tries
  the options in order and `toolParameterSchema` — which strips the unknown
  variant-specific keys — already succeeds whenever the base fields are valid,
  so a nested parameter is reduced to its base form (all options fail iff its
  `name` is empty, since every variant schema extends the base);
* the top-level `parameterSchema` union is discriminated by the `type`
  literal, so each variant is checked by its own schema, keys kept;
* `requiredParameters`, `tags`, `examples`, `metadata` pass through verbatim
  with no cross-checks against `parameters`.
-/

/-- Is an optional JS number absent or integral (`z.number().int().optional()`)? -/
def isIntOpt : Option Rat → Bool
  | none => true
  | some q => q.den == 1

/-- The nested-position union `toolParameterSchema.or(...)` on a typed
parameter: strips to the base record, failing only on an empty `name`. -/
def stripParam : Param → Except String Param
  | .str n d r _ _ _ _ _ _ =>
      if n = "" then .error "nested parameter name must be nonempty"
      else .ok (.str n d r none none none none none none)
  | .num n d r _ _ _ _ _ =>
      if n = "" then .error "nested parameter name must be nonempty"
      else .ok (.num n d r none none none none none)
  | .bool n d r _ =>
      if n = "" then .error "nested parameter name must be nonempty"
      else .ok (.bool n d r none)
  | .arr n d r _ _ _ _ _ =>
      if n = "" then .error "nested parameter name must be nonempty"
      else .ok (.arr n d r none none none none none)
  | .obj n d r _ _ _ _ =>
      if n = "" then .error "nested parameter name must be nonempty"
      else .ok (.obj n d r none none none none)

/-- Parse each value of a nested `properties` record
(`z.record(z.string(), z.lazy(() => toolParameterSchema.or(...)))`). -/
def stripProps : Props → Except String Props
  | .nil => .ok .nil
  | .cons k v tl =>
      match stripParam v with
      | .error e => .error e
      | .ok v' =>
          match stripProps tl with
          | .error e => .error e
          | .ok tl' => .ok (.cons k v' tl')

/-- The top-level `parameterSchema` union (`validateParameter`) on a typed
parameter.  Each variant keeps its own keys; `minLength`/`maxLength` and
`minItems`/`maxItems` must be integral; an array must actually have `items`
(`z.lazy` on `undefined` fails every union option); nested parameters are
stripped to base form. -/
def parseParameter : Param → Except String Param
  | .str n d r format minLength maxLength pattern en default =>
      if n = "" then .error "parameter name must be nonempty"
      else if !(isIntOpt minLength) then .error "minLength must be an integer"
      else if !(isIntOpt maxLength) then .error "maxLength must be an integer"
      else .ok (.str n d r format minLength maxLength pattern en default)
  | .num n d r minimum maximum multipleOf format default =>
      if n = "" then .error "parameter name must be nonempty"
      else .ok (.num n d r minimum maximum multipleOf format default)
  | .bool n d r default =>
      if n = "" then .error "parameter name must be nonempty"
      else .ok (.bool n d r default)
  | .arr n d r items minItems maxItems uniqueItems default =>
      if n = "" then .error "parameter name must be nonempty"
      else
        match items with
        | none => .error "array parameter requires items"
        | some it =>
            match stripParam it with
            | .error e => .error e
            | .ok it' =>
                if !(isIntOpt minItems) then .error "minItems must be an integer"
                else if !(isIntOpt maxItems) then .error "maxItems must be an integer"
                else .ok (.arr n d r (some it') minItems maxItems uniqueItems default)
  | .obj n d r properties requiredProps additionalProperties default =>
      if n = "" then .error "parameter name must be nonempty"
      else
        match properties with
        | none => .ok (.obj n d r none requiredProps additionalProperties default)
        | some ps =>
            match stripProps ps with
            | .error e => .error e
            | .ok ps' => .ok (.obj n d r (some ps') requiredProps additionalProperties default)

/-- Parse a tool's `parameters` record (`z.record(z.string(), parameterSchema)`). -/
def parseParamsRecord : Props → Except String Props
  | .nil => .ok .nil
  | .cons k v tl =>
      match parseParameter v with
      | .error e => .error e
      | .ok v' =>
          match parseParamsRecord tl with
          | .error e => .error e
          | .ok tl' => .ok (.cons k v' tl')

/-- `validateTool` (lines 147-149): `toolSchema.parse` on a typed tool.
`name` and `description` must be nonempty; each top-level parameter and the
optional `returns` go through `parameterSchema`; `requiredParameters`, `tags`,
`examples` and `metadata` are kept verbatim — in particular no name in
`requiredParameters` is checked against the keys of `parameters`. -/
def validateTool (t : Tool) : Except String Tool :=
  if t.name = "" then .error "tool name must be nonempty"
  else if t.description = "" then .error "tool description must be nonempty"
  else
    match (match t.parameters with
           | none => Except.ok none
           | some ps =>
               match parseParamsRecord ps with
               | .error e => Except.error e
               | .ok ps' => Except.ok (some ps') :
           Except String (Option Props)) with
    | .error e => .error e
    | .ok parameters' =>
        match (match t.returns with
               | none => Except.ok none
               | some r =>
                   match parseParameter r with
                   | .error e => Except.error e
                   | .ok r' => Except.ok (some r') :
               Except String (Option Param)) with
        | .error e => .error e
        | .ok returns' => .ok { t with parameters := parameters', returns := returns' }

/-! ## The registry (`ToolRegistry`, lines 261-416)

`tools : Map<string, Tool>` and `tags : Map<string, Set<string>>` are
modelled as insertion-ordered association lists (a JS `Map` keeps unique keys
in insertion order; a JS `Set` keeps unique elements in insertion order).
A thrown error leaves the instance state unchanged, so each mutating
operation returns the (possibly unchanged) state together with its
result-or-error. -/

/-- `Map.get`. -/
def lookupKey : List (String × α) → String → Option α
  | [], _ => none
  | (k, v) :: tl, key => if k = key then some v else lookupKey tl key

/-- `Map.set`: update in place if the key exists, else append. -/
def setKey : List (String × α) → String → α → List (String × α)
  | [], key, v => [(key, v)]
  | (k, w) :: tl, key, v =>
      if k = key then (key, v) :: tl else (k, w) :: setKey tl key v

/-- `Map.delete`. -/
def delKey : List (String × α) → String → List (String × α)
  | [], _ => []
  | (k, w) :: tl, key => if k = key then tl else (k, w) :: delKey tl key

/-- The two co-maintained indices of a `ToolRegistry` instance. -/
structure RegState where
  tools : List (String × Tool)
  tags : List (String × List String)

/-- Errors thrown by registry operations: the zod `ValidationError`, the
`already registered` conflict, and the `Inconsistency in tool registry`
internal error. -/
inductive RegError where
  | validation (msg : String)
  | duplicateName (name : String)
  | corruption (name : String)
deriving DecidableEq

/-- A freshly constructed `ToolRegistry`. -/
def emptyRegistry : RegState := ⟨[], []⟩

/-- The tool's tag list as iterated by the registry (absent = no tags). -/
def Tool.tagList (t : Tool) : List String := t.tags.getD []

/-- One step of the tag-index update of `registerTool`:
ensure the bucket exists, then `Set.add` the tool name. -/
def addTagFor (tags : List (String × List String)) (tag name : String) :
    List (String × List String) :=
  match lookupKey tags tag with
  | none => setKey tags tag [name]
  | some bucket =>
      if name ∈ bucket then tags else setKey tags tag (bucket ++ [name])

/-- `ToolRegistry.registerTool` (lines 272-295): validate, reject a duplicate
name, insert, index the tags.  (The source guards the tag loop with
`tags && tags.length > 0`; folding over the empty list is the same.) -/
def registerTool (s : RegState) (t : Tool) : RegState × Except RegError Tool :=
  match validateTool t with
  | .error e => (s, .error (.validation e))
  | .ok v =>
      if (lookupKey s.tools v.name).isSome then
        (s, .error (.duplicateName v.name))
      else
        let tools' := setKey s.tools v.name v
        let tags' := v.tagList.foldl (fun m tag => addTagFor m tag v.name) s.tags
        (⟨tools', tags'⟩, .ok v)

/-- `ToolRegistry.getTool` (lines 303-305). -/
def getTool (s : RegState) (name : String) : Option Tool :=
  lookupKey s.tools name

/-- `ToolRegistry.getAllTools` (lines 312-314): values in insertion order. -/
def getAllTools (s : RegState) : List Tool :=
  s.tools.map (fun p => p.2)

/-- `ToolRegistry.hasTool` (lines 378-380). -/
def hasTool (s : RegState) (name : String) : Bool :=
  (lookupKey s.tools name).isSome

/-- `ToolRegistry.getAllTags` (lines 387-389). -/
def getAllTags (s : RegState) : List String :=
  s.tags.map (fun p => p.1)

/-- `ToolRegistry.clear` (lines 394-397). -/
def RegState.clear (_ : RegState) : RegState := ⟨[], []⟩

/-- `ToolRegistry.size` (lines 404-406). -/
def RegState.size (s : RegState) : Nat := s.tools.length

/-- `ToolRegistry.tagCount` (lines 413-415). -/
def RegState.tagCount (s : RegState) : Nat := s.tags.length

/-- The body of `getToolsByTag`'s `map`: resolve each indexed name, throwing
the internal-inconsistency error at the first name with no tool. -/
def resolveNames (s : RegState) : List String → Except RegError (List Tool)
  | [] => .ok []
  | n :: tl =>
      match lookupKey s.tools n with
      | none => .error (.corruption n)
      | some t =>
          match resolveNames s tl with
          | .error e => .error e
          | .ok rest => .ok (t :: rest)

/-- `ToolRegistry.getToolsByTag` (lines 322-331): empty list for an unknown
tag, otherwise resolve every indexed name. -/
def getToolsByTag (s : RegState) (tag : String) : Except RegError (List Tool) :=
  match lookupKey s.tags tag with
  | none => .ok []
  | some names => resolveNames s names

/-- One step of the tag scrub of `unregisterTool`: remove the name from the
bucket, deleting the bucket if it becomes empty. -/
def scrubTag (tags : List (String × List String)) (name tag : String) :
    List (String × List String) :=
  match lookupKey tags tag with
  | none => tags
  | some bucket =>
      let bucket' := bucket.filter (fun x => x ≠ name)
      if bucket'.isEmpty then delKey tags tag else setKey tags tag bucket'

/-- `ToolRegistry.unregisterTool` (lines 339-360). -/
def unregisterTool (s : RegState) (name : String) : RegState × Bool :=
  match lookupKey s.tools name with
  | none => (s, false)
  | some tool =>
      let tools' := delKey s.tools name
      let tags' := tool.tagList.foldl (fun m tag => scrubTag m name tag) s.tags
      (⟨tools', tags'⟩, true)

/-- `ToolRegistry.registerTools` (lines 368-370): `tools.map(registerTool)` —
sequential, stopping at the first thrown error, earlier registrations kept. -/
def registerTools (s : RegState) :
    List Tool → RegState × Except RegError (List Tool)
  | [] => (s, .ok [])
  | t :: tl =>
      match registerTool s t with
      | (s', .error e) => (s', .error e)
      | (s', .ok v) =>
          match registerTools s' tl with
          | (s'', .ok vs) => (s'', .ok (v :: vs))
          | (s'', .error e) => (s'', .error e)

/-- Registry states reachable from a fresh registry by any sequence of
`registerTool`, `registerTools`, `unregisterTool` and `clear` calls
(a call that throws leaves the state as it was). -/
inductive Reachable : RegState → Prop where
  | empty : Reachable emptyRegistry
  | register (s : RegState) (t : Tool) :
      Reachable s → Reachable (registerTool s t).1
  | registerMany (s : RegState) (ts : List Tool) :
      Reachable s → Reachable (registerTools s ts).1
  | unregister (s : RegState) (n : String) :
      Reachable s → Reachable (unregisterTool s n).1
  | clearStep (s : RegState) :
      Reachable s → Reachable (s.clear)

/-! ## Association-map lemmas -/

theorem lookupKey_cons (k2 : String) (v : α) (tl : List (String × α)) (k : String) :
    lookupKey ((k2, v) :: tl) k = if k2 = k then some v else lookupKey tl k := rfl

theorem setKey_cons (k2 : String) (w : α) (tl : List (String × α)) (k : String) (v : α) :
    setKey ((k2, w) :: tl) k v =
      if k2 = k then (k, v) :: tl else (k2, w) :: setKey tl k v := rfl

theorem lookupKey_setKey (m : List (String × α)) (k k' : String) (v : α) :
    lookupKey (setKey m k v) k' = if k = k' then some v else lookupKey m k' := by
  induction m with
  | nil => rfl
  | cons p tl ih =>
      obtain ⟨pk, pv⟩ := p
      by_cases hk : pk = k
      · subst hk
        rw [setKey_cons, if_pos rfl]
        by_cases hk' : pk = k'
        · rw [lookupKey_cons, if_pos hk', if_pos hk']
        · rw [lookupKey_cons, if_neg hk', if_neg hk', lookupKey_cons, if_neg hk']
      · rw [setKey_cons, if_neg hk, lookupKey_cons, ih, lookupKey_cons]
        by_cases hk' : pk = k'
        · have hkk' : ¬ (k = k') := fun hcontra => hk (hk'.trans hcontra.symm)
          rw [if_pos hk', if_neg hkk', if_pos hk']
        · rw [if_neg hk', if_neg hk']

theorem lookupKey_eq_none_iff (m : List (String × α)) (k : String) :
    lookupKey m k = none ↔ k ∉ m.map Prod.fst := by
  induction m with
  | nil => simp [lookupKey]
  | cons p tl ih =>
      obtain ⟨pk, pv⟩ := p
      by_cases hk : pk = k
      · subst hk
        simp [lookupKey_cons]
      · rw [lookupKey_cons, if_neg hk, ih]
        simp only [List.map_cons, List.mem_cons]
        constructor
        · intro hnone hor
          rcases hor with h1 | h1
          · exact hk h1.symm
          · exact hnone h1
        · intro hnone h1
          exact hnone (Or.inr h1)

theorem lookupKey_isSome_iff (m : List (String × α)) (k : String) :
    (lookupKey m k).isSome ↔ k ∈ m.map Prod.fst := by
  rw [← Decidable.not_not (p := k ∈ m.map Prod.fst), ← lookupKey_eq_none_iff]
  cases lookupKey m k <;> simp

theorem lookupKey_some_mem {m : List (String × α)} {k : String} {v : α}
    (h : lookupKey m k = some v) : (k, v) ∈ m := by
  induction m with
  | nil => simp [lookupKey] at h
  | cons p tl ih =>
      obtain ⟨pk, pv⟩ := p
      by_cases hk : pk = k
      · subst hk
        rw [lookupKey_cons, if_pos rfl, Option.some_inj] at h
        subst h
        exact List.mem_cons_self _ _
      · rw [lookupKey_cons, if_neg hk] at h
        exact List.mem_cons_of_mem _ (ih h)

theorem keys_setKey (m : List (String × α)) (k : String) (v : α) :
    (setKey m k v).map Prod.fst =
      if k ∈ m.map Prod.fst then m.map Prod.fst else m.map Prod.fst ++ [k] := by
  induction m with
  | nil => simp [setKey]
  | cons p tl ih =>
      obtain ⟨pk, pv⟩ := p
      by_cases hk : pk = k
      · subst hk
        simp [setKey]
      · have hk2 : ¬ (k = pk) := fun hcontra => hk hcontra.symm
        by_cases hmem : k ∈ tl.map Prod.fst
        · simp [setKey, hk, hk2, hmem, ih]
        · simp [setKey, hk, hk2, hmem, ih]

theorem nodup_keys_setKey {m : List (String × α)} (k : String) (v : α)
    (h : (m.map Prod.fst).Nodup) : ((setKey m k v).map Prod.fst).Nodup := by
  rw [keys_setKey]
  by_cases hmem : k ∈ m.map Prod.fst
  · simp only [if_pos hmem]
    exact h
  · simp only [if_neg hmem]
    rw [List.nodup_append]
    refine ⟨h, List.nodup_singleton _, ?_⟩
    intro a ha hak
    simp only [List.mem_singleton] at hak
    exact hmem (hak ▸ ha)

theorem keys_delKey_sublist (m : List (String × α)) (k : String) :
    ((delKey m k).map Prod.fst).Sublist (m.map Prod.fst) := by
  induction m with
  | nil => simp [delKey]
  | cons p tl ih =>
      obtain ⟨pk, pv⟩ := p
      by_cases hk : pk = k
      · subst hk
        simp only [delKey, if_pos rfl, List.map_cons]
        exact (List.Sublist.refl _).cons _
      · simp only [delKey, if_neg hk, List.map_cons]
        exact ih.cons₂ _

theorem nodup_keys_delKey {m : List (String × α)} (k : String)
    (h : (m.map Prod.fst).Nodup) : ((delKey m k).map Prod.fst).Nodup :=
  (keys_delKey_sublist m k).nodup h

theorem mem_delKey {m : List (String × α)} {k : String} {p : String × α}
    (h : p ∈ delKey m k) : p ∈ m := by
  induction m with
  | nil => simp [delKey] at h
  | cons q tl ih =>
      obtain ⟨qk, qv⟩ := q
      by_cases hk : qk = k
      · subst hk
        rw [delKey, if_pos rfl] at h
        exact List.mem_cons_of_mem _ h
      · rw [delKey, if_neg hk] at h
        rcases List.mem_cons.mp h with h1 | h1
        · exact h1 ▸ List.mem_cons_self _ _
        · exact List.mem_cons_of_mem _ (ih h1)

theorem mem_setKey {m : List (String × α)} {k : String} {v : α} {p : String × α}
    (h : p ∈ setKey m k v) : p ∈ m ∨ p = (k, v) := by
  induction m with
  | nil =>
      rw [setKey] at h
      exact Or.inr (List.mem_singleton.mp h)
  | cons q tl ih =>
      obtain ⟨qk, qv⟩ := q
      by_cases hk : qk = k
      · subst hk
        rw [setKey, if_pos rfl] at h
        rcases List.mem_cons.mp h with h1 | h1
        · exact Or.inr h1
        · exact Or.inl (List.mem_cons_of_mem _ h1)
      · rw [setKey, if_neg hk] at h
        rcases List.mem_cons.mp h with h1 | h1
        · exact Or.inl (h1 ▸ List.mem_cons_self _ _)
        · rcases ih h1 with h2 | h2
          · exact Or.inl (List.mem_cons_of_mem _ h2)
          · exact Or.inr h2

theorem lookupKey_delKey_self {m : List (String × α)} (k : String)
    (h : (m.map Prod.fst).Nodup) : lookupKey (delKey m k) k = none := by
  induction m with
  | nil => simp [delKey, lookupKey]
  | cons p tl ih =>
      obtain ⟨pk, pv⟩ := p
      simp only [List.map_cons, List.nodup_cons] at h
      by_cases hk : pk = k
      · subst hk
        rw [delKey, if_pos rfl, lookupKey_eq_none_iff]
        exact h.1
      · rw [delKey, if_neg hk, lookupKey_cons, if_neg hk]
        exact ih h.2

theorem lookupKey_delKey_ne (m : List (String × α)) {k k' : String}
    (h : k ≠ k') : lookupKey (delKey m k) k' = lookupKey m k' := by
  induction m with
  | nil => simp [delKey]
  | cons p tl ih =>
      obtain ⟨pk, pv⟩ := p
      by_cases hk : pk = k
      · subst hk
        rw [delKey, if_pos rfl, lookupKey_cons, if_neg h]
      · rw [delKey, if_neg hk, lookupKey_cons, lookupKey_cons, ih]

/-! ## Validation facts, concrete tools, and registry theorems -/

theorem validateTool_ok_fields {t v : Tool} (h : validateTool t = .ok v) :
    v.name = t.name ∧ v.description = t.description ∧
    v.requiredParameters = t.requiredParameters ∧ v.tags = t.tags := by
  unfold validateTool at h
  split at h
  · exact absurd h (by simp)
  · split at h
    · exact absurd h (by simp)
    · split at h
      · exact absurd h (by simp)
      · split at h
        · exact absurd h (by simp)
        · injection h with h2
          subst h2
          exact ⟨rfl, rfl, rfl, rfl⟩

def propsKeys : Props → List String
  | .nil => []
  | .cons k _ tl => k :: propsKeys tl

def c9Tool : Tool :=
  { name := "lookupUser", description := "Looks up a user",
    parameters := some (Props.cons "query"
      (Param.str "query" "the query" true none none none none none none) Props.nil),
    requiredParameters := some ["query", "ghost"],
    returns := some (Param.str "result" "the result" false none none none none none none),
    tags := none,
    examples := some [{ input := JObj.cons "unrelated" (Json.str "x") JObj.nil,
                        output := Json.str "y", description := none }],
    metadata := none }

/-- Claim C9: `validateTool` is purely structural — a well-formed tool whose
`requiredParameters` contains a name (`ghost`) that is not a key of
`parameters` validates successfully and is returned unchanged; the dangling
name is kept verbatim. -/
theorem claim9_theorem :
    validateTool c9Tool = .ok c9Tool ∧
    c9Tool.requiredParameters = some ["query", "ghost"] ∧
    propsKeys (c9Tool.parameters.getD .nil) = ["query"] ∧
    "ghost" ∉ propsKeys (c9Tool.parameters.getD .nil) := by
  refine ⟨rfl, rfl, rfl, ?_⟩
  decide

def c10Nested : Param :=
  Param.str "mode" "the mode" false none (some 2) (some 16) none
    (some ["fast", "slow"]) none

def c10Tool : Tool :=
  { name := "setConfig", description := "Sets configuration",
    parameters := some (Props.cons "options"
      (Param.obj "options" "the options" false
        (some (Props.cons "mode" c10Nested Props.nil)) none none none)
      Props.nil),
    requiredParameters := none, returns := none, tags := none,
    examples := none, metadata := none }

def c10Validated : Tool :=
  { name := "setConfig", description := "Sets configuration",
    parameters := some (Props.cons "options"
      (Param.obj "options" "the options" false
        (some (Props.cons "mode"
          (Param.str "mode" "the mode" false none none none none none none)
          Props.nil)) none none none)
      Props.nil),
    requiredParameters := none, returns := none, tags := none,
    examples := none, metadata := none }

/-- The `minLength` projection of a string parameter. -/
def Param.minLengthOf : Param → Option Rat
  | .str _ _ _ _ minLength _ _ _ _ => minLength
  | _ => none

/-- The `enum` projection of a string parameter. -/
def Param.enumOf : Param → Option (List String)
  | .str _ _ _ _ _ _ _ en _ => en
  | _ => none

/-- The `properties` projection of an object parameter. -/
def Param.propertiesOf : Param → Option Props
  | .obj _ _ _ properties _ _ _ => properties
  | _ => none

/-- Lookup in a `properties` record. -/
def Props.valueAt : Props → String → Option Param
  | .nil, _ => none
  | .cons k v tl, key => if k = key then some v else Props.valueAt tl key

/-- The parameter reached through a top-level object parameter `k1` and one of
its properties `k2`. -/
def Tool.nestedParamAt (t : Tool) (k1 k2 : String) : Option Param :=
  ((t.parameters.bind (fun ps => ps.valueAt k1)).bind Param.propertiesOf).bind
    (fun ps => ps.valueAt k2)

/-- Claim C10: the nested-position schemas try the bare base parameter schema
first and object parsing strips unrecognised keys, so a tool whose object
parameter has a nested string property with `minLength` and `enum` validates
successfully but comes back with those nested constraint fields removed —
validation is not the identity on this well-formed input. -/
theorem claim10_theorem :
    validateTool c10Tool = .ok c10Validated ∧
    (c10Tool.nestedParamAt "options" "mode").bind Param.minLengthOf = some 2 ∧
    (c10Tool.nestedParamAt "options" "mode").bind Param.enumOf =
      some ["fast", "slow"] ∧
    (c10Validated.nestedParamAt "options" "mode").bind Param.minLengthOf = none ∧
    (c10Validated.nestedParamAt "options" "mode").bind Param.enumOf = none ∧
    c10Validated ≠ c10Tool := by
  refine ⟨rfl, rfl, rfl, rfl, rfl, ?_⟩
  intro h
  simp [c10Validated, c10Tool, c10Nested] at h

/-- Claim C3: for every valid tool whose name is not yet registered,
`registerTool` succeeds and a subsequent `getTool` of its name returns exactly
the validated form of the tool. -/
theorem claim3_theorem (s : RegState) (t v : Tool)
    (hval : validateTool t = .ok v) (hfresh : hasTool s t.name = false) :
    (registerTool s t).2 = .ok v ∧
    getTool (registerTool s t).1 t.name = some v := by
  have hf := validateTool_ok_fields hval
  have hfresh' : (lookupKey s.tools v.name).isSome = false := by
    rw [hf.1]; exact hfresh
  unfold registerTool
  rw [hval]
  simp only [hfresh', Bool.false_eq_true, if_false]
  refine ⟨trivial, ?_⟩
  unfold getTool
  simp only
  rw [lookupKey_setKey]
  rw [hf.1]
  simp

/-- Claim C4 (amended): registering a tool that passes validation while its
(exact, case-sensitive) name is already present fails with the
duplicate-name error and returns the registry state unchanged (hence
`getAllTools`, `size` and `tagCount` are unchanged).  The amendment restricts
the claim to tools that pass validation: `registerTool` validates first, so an
invalid tool with a duplicate name throws a validation error instead — see
the counterexample. -/
theorem claim4_theorem (s : RegState) (t v : Tool)
    (hval : validateTool t = .ok v) (hdup : hasTool s v.name = true) :
    registerTool s t = (s, .error (.duplicateName v.name)) := by
  unfold hasTool at hdup
  unfold registerTool
  rw [hval]
  simp only [hdup, if_true]

def c4First : Tool :=
  { name := "fetch", description := "fetches a url", parameters := none,
    requiredParameters := none, returns := none, tags := none,
    examples := none, metadata := none }

def c4State : RegState := (registerTool emptyRegistry c4First).1

def c4Bad : Tool :=
  { name := "fetch", description := "", parameters := none,
    requiredParameters := none, returns := none, tags := none,
    examples := none, metadata := none }

/-- Claim C4 counterexample: with `fetch` registered, registering an invalid
tool (empty description) named `fetch` fails with a validation error, not the
duplicate-name error the claim promises for every tool with a taken name. -/
theorem claim4_counterexample :
    hasTool c4State "fetch" = true ∧
    c4Bad.name = "fetch" ∧
    (registerTool c4State c4Bad).2 =
      .error (.validation "tool description must be nonempty") ∧
    (registerTool c4State c4Bad).2 ≠ .error (.duplicateName "fetch") := by
  refine ⟨rfl, rfl, rfl, ?_⟩
  intro h
  rw [show (registerTool c4State c4Bad).2 =
      Except.error (RegError.validation "tool description must be nonempty") from rfl] at h
  simp at h

theorem registerTool_error_state {s : RegState} {t : Tool} {s' : RegState} {e : RegError}
    (h : registerTool s t = (s', .error e)) : s' = s := by
  unfold registerTool at h
  split at h
  · simp only [Prod.mk.injEq] at h
    exact h.1.symm
  · split at h
    · simp only [Prod.mk.injEq] at h
      exact h.1.symm
    · simp only [Prod.mk.injEq] at h
      exact absurd h.2 (by simp)

theorem registerTool_ok_facts {s : RegState} {t : Tool} {s' : RegState} {v : Tool}
    (h : registerTool s t = (s', .ok v)) :
    validateTool t = .ok v ∧ hasTool s v.name = false ∧
    s'.tools = setKey s.tools v.name v ∧
    s'.tags = v.tagList.foldl (fun m tag => addTagFor m tag v.name) s.tags := by
  unfold registerTool at h
  split at h
  · simp only [Prod.mk.injEq] at h
    exact absurd h.2 (by simp)
  · rename_i v1 heq
    split at h
    · simp only [Prod.mk.injEq] at h
      exact absurd h.2 (by simp)
    · rename_i hcond
      simp only [Prod.mk.injEq] at h
      obtain ⟨hs, hv⟩ := h
      injection hv with hv
      subst hv
      subst hs
      refine ⟨heq, ?_, rfl, rfl⟩
      unfold hasTool
      simp only [Bool.not_eq_true] at hcond
      exact hcond

def foldOk : RegState → List Tool → Option RegState
  | s, [] => some s
  | s, t :: tl =>
      match registerTool s t with
      | (_, .error _) => none
      | (s', .ok _) => foldOk s' tl

theorem hasTool_registerTool_ok {s : RegState} {t : Tool} {s' : RegState} {v : Tool}
    {n : String} (h : registerTool s t = (s', .ok v)) (hn : hasTool s n = true) :
    hasTool s' n = true := by
  obtain ⟨-, -, htools, -⟩ := registerTool_ok_facts h
  unfold hasTool at hn ⊢
  rw [htools, lookupKey_setKey]
  by_cases heq : v.name = n
  · simp [heq]
  · rw [if_neg heq]
    exact hn

theorem hasTool_foldOk {l : List Tool} {s s₂ : RegState} {n : String}
    (h : foldOk s l = some s₂) (hn : hasTool s n = true) : hasTool s₂ n = true := by
  induction l generalizing s with
  | nil =>
      unfold foldOk at h
      injection h with h
      exact h ▸ hn
  | cons t tl ih =>
      unfold foldOk at h
      split at h
      · exact absurd h (by simp)
      · rename_i s1 v heq
        exact ih h (hasTool_registerTool_ok heq hn)

theorem registerTools_error_spec (s : RegState) (ts : List Tool) (s' : RegState) (e : RegError)
    (h : registerTools s ts = (s', .error e)) :
    ∃ k, ∃ hk : k < ts.length,
      foldOk s (ts.take k) = some s' ∧
      registerTool s' (ts.get ⟨k, hk⟩) = (s', .error e) ∧
      ∀ i, ∀ hi : i < k, ∃ v,
        validateTool (ts.get ⟨i, Nat.lt_trans hi hk⟩) = .ok v ∧
        hasTool s' v.name = true := by
  induction ts generalizing s with
  | nil =>
      unfold registerTools at h
      simp only [Prod.mk.injEq] at h
      exact absurd h.2 (by simp)
  | cons t tl ih =>
      unfold registerTools at h
      split at h
      · rename_i s1 er heq
        simp only [Prod.mk.injEq] at h
        obtain ⟨hs, he⟩ := h
        injection he with he
        have hs1 : s1 = s := registerTool_error_state heq
        subst hs
        subst he
        subst hs1
        refine ⟨0, by simp, ?_, ?_, ?_⟩
        · rfl
        · exact heq
        · intro i hi
          exact absurd hi (Nat.not_lt_zero i)
      · rename_i s1 v heq
        split at h
        · simp only [Prod.mk.injEq] at h
          exact absurd h.2 (by simp)
        · rename_i s2 e2 heq2
          simp only [Prod.mk.injEq] at h
          obtain ⟨hs, he⟩ := h
          injection he with he
          subst hs
          subst he
          obtain ⟨k, hk, hfold, hfail, hearlier⟩ := ih s1 heq2
          refine ⟨k + 1, by simpa using Nat.succ_lt_succ hk, ?_, ?_, ?_⟩
          · rw [List.take_succ_cons]
            simp only [foldOk]
            rw [heq]
            exact hfold
          · simpa using hfail
          · intro i hi
            cases i with
            | zero =>
                obtain ⟨hval, -, htools, -⟩ := registerTool_ok_facts heq
                refine ⟨v, hval, ?_⟩
                have hself : hasTool s1 v.name = true := by
                  unfold hasTool
                  rw [htools, lookupKey_setKey, if_pos rfl]
                  rfl
                exact hasTool_foldOk hfold hself
            | succ j =>
                have hj : j < k := Nat.lt_of_succ_lt_succ hi
                obtain ⟨v2, hval2, hhas2⟩ := hearlier j hj
                exact ⟨v2, hval2, hhas2⟩

theorem resolveNames_corruption {s : RegState} {names : List String}
    (hex : ∃ n, n ∈ names ∧ lookupKey s.tools n = none) :
    ∃ n, n ∈ names ∧ lookupKey s.tools n = none ∧
      resolveNames s names = .error (.corruption n) := by
  induction names with
  | nil =>
      obtain ⟨n, hn, -⟩ := hex
      simp at hn
  | cons m tl ih =>
      cases hm : lookupKey s.tools m with
      | none =>
          refine ⟨m, List.mem_cons_self _ _, hm, ?_⟩
          unfold resolveNames
          rw [hm]
      | some t0 =>
          obtain ⟨n, hn, hnone⟩ := hex
          rcases List.mem_cons.mp hn with h1 | h1
          · subst h1
            rw [hm] at hnone
            cases hnone
          · obtain ⟨n2, hn2, hnone2, hres⟩ := ih ⟨n, h1, hnone⟩
            refine ⟨n2, List.mem_cons_of_mem _ hn2, hnone2, ?_⟩
            unfold resolveNames
            rw [hm, hres]

/-- Claim C7: `getToolsByTag` returns the empty list, without error, for any
tag not present in the tag index; and if an indexed bucket contains a name
that cannot be resolved in the tools map, it fails with the
registry-corruption error naming the first such name. -/
theorem claim7_theorem (s : RegState) (tag : String) :
    (lookupKey s.tags tag = none → getToolsByTag s tag = .ok []) ∧
    (∀ names, lookupKey s.tags tag = some names →
      (∃ n, n ∈ names ∧ lookupKey s.tools n = none) →
      ∃ n, n ∈ names ∧ lookupKey s.tools n = none ∧
        getToolsByTag s tag = .error (.corruption n)) := by
  constructor
  · intro h
    unfold getToolsByTag
    rw [h]
  · intro names hlk hex
    obtain ⟨n, hn, hnone, hres⟩ := resolveNames_corruption hex
    refine ⟨n, hn, hnone, ?_⟩
    unfold getToolsByTag
    rw [hlk]
    exact hres

theorem scrubTag_keys_nodup {m : List (String × List String)} (nm tg : String)
    (h : (m.map Prod.fst).Nodup) :
    (((scrubTag m nm tg).map Prod.fst)).Nodup := by
  unfold scrubTag
  cases lookupKey m tg with
  | none => exact h
  | some b =>
      by_cases hemp : (b.filter fun x => x ≠ nm).isEmpty
      · simp only [hemp, if_true]
        exact nodup_keys_delKey _ h
      · simp only [hemp, Bool.false_eq_true, if_false]
        exact nodup_keys_setKey _ _ h

theorem lookupKey_scrubTag_ne (m : List (String × List String)) (nm : String)
    {tg tag : String} (h : tg ≠ tag) :
    lookupKey (scrubTag m nm tg) tag = lookupKey m tag := by
  unfold scrubTag
  cases lookupKey m tg with
  | none => rfl
  | some b =>
      by_cases hemp : (b.filter fun x => x ≠ nm).isEmpty
      · simp only [hemp, if_true]
        exact lookupKey_delKey_ne _ h
      · simp only [hemp, Bool.false_eq_true, if_false]
        rw [lookupKey_setKey, if_neg h]

theorem lookupKey_scrubTag_self {m : List (String × List String)} (nm tg : String)
    (hnd : (m.map Prod.fst).Nodup) :
    lookupKey (scrubTag m nm tg) tg =
      (match lookupKey m tg with
       | none => none
       | some b => if (b.filter fun x => x ≠ nm).isEmpty then none
                   else some (b.filter fun x => x ≠ nm)) := by
  unfold scrubTag
  cases hb : lookupKey m tg with
  | none => rw [hb]
  | some b =>
      by_cases hemp : (b.filter fun x => x ≠ nm).isEmpty
      · simp only [hemp, if_true]
        exact lookupKey_delKey_self _ hnd
      · simp only [hemp, Bool.false_eq_true, if_false]
        rw [lookupKey_setKey, if_pos rfl]

theorem lookupKey_scrubFold (ts : List String) (m : List (String × List String))
    (nm tag : String) (hnd : (m.map Prod.fst).Nodup) :
    lookupKey (ts.foldl (fun acc tg => scrubTag acc nm tg) m) tag =
      if tag ∈ ts then
        (match lookupKey m tag with
         | none => none
         | some b => if (b.filter fun x => x ≠ nm).isEmpty then none
                     else some (b.filter fun x => x ≠ nm))
      else lookupKey m tag := by
  induction ts generalizing m with
  | nil => simp
  | cons t0 rest ih =>
      rw [List.foldl_cons]
      have hnd1 := scrubTag_keys_nodup nm t0 hnd
      rw [ih _ hnd1]
      by_cases ht : tag ∈ rest
      · rw [if_pos ht, if_pos (List.mem_cons_of_mem _ ht)]
        by_cases h0 : t0 = tag
        · subst h0
          rw [lookupKey_scrubTag_self nm t0 hnd]
          cases hb : lookupKey m t0 with
          | none => rfl
          | some b =>
              by_cases hemp : (b.filter fun x => x ≠ nm).isEmpty
              · simp only [hemp, if_true]
              · simp only [hemp, Bool.false_eq_true, if_false]
                have hidem : ((b.filter fun x => x ≠ nm).filter fun x => x ≠ nm) =
                    b.filter fun x => x ≠ nm := by
                  rw [List.filter_filter]
                  simp
                rw [hidem]
                simp only [hemp, Bool.false_eq_true, if_false]
        · rw [lookupKey_scrubTag_ne _ _ h0]
      · rw [if_neg ht]
        by_cases h0 : t0 = tag
        · subst h0
          rw [if_pos (List.mem_cons_self _ _)]
          exact lookupKey_scrubTag_self nm t0 hnd
        · have hnotin : tag ∉ t0 :: rest := by
            intro hmem
            rcases List.mem_cons.mp hmem with h1 | h1
            · exact h0 h1.symm
            · exact ht h1
          rw [if_neg hnotin]
          exact lookupKey_scrubTag_ne _ _ h0

/-- Claim C8: `unregisterTool` on an absent name returns `false` and leaves
the state entirely unchanged; on a present tool it returns `true`, deletes the
entry from the tools map, filters the tool's name out of the bucket of every
tag the tool carries (deleting a bucket that becomes empty) and leaves every
other bucket untouched. -/
theorem claim8_theorem (s : RegState) (name : String)
    (hnd : (s.tags.map Prod.fst).Nodup) :
    (getTool s name = none → unregisterTool s name = (s, false)) ∧
    (∀ tool, getTool s name = some tool →
      (unregisterTool s name).2 = true ∧
      (unregisterTool s name).1.tools = delKey s.tools name ∧
      (∀ tag, tag ∈ tool.tagList →
        lookupKey (unregisterTool s name).1.tags tag =
          (match lookupKey s.tags tag with
           | none => none
           | some b => if (b.filter fun x => x ≠ name).isEmpty then none
                       else some (b.filter fun x => x ≠ name))) ∧
      (∀ tag, tag ∉ tool.tagList →
        lookupKey (unregisterTool s name).1.tags tag = lookupKey s.tags tag)) := by
  constructor
  · intro h
    unfold getTool at h
    unfold unregisterTool
    rw [h]
  · intro tool h
    unfold getTool at h
    unfold unregisterTool
    rw [h]
    refine ⟨rfl, rfl, ?_, ?_⟩
    · intro tag htag
      simp only
      rw [lookupKey_scrubFold _ _ _ _ hnd, if_pos htag]
    · intro tag htag
      simp only
      rw [lookupKey_scrubFold _ _ _ _ hnd, if_neg htag]

/-- The claimed coupling between the two indices: a name sits in the bucket of
tag `t` exactly when a registered tool of that name lists `t` among its tags. -/
def TagMembership (s : RegState) : Prop :=
  ∀ tag name, (∃ b, lookupKey s.tags tag = some b ∧ name ∈ b) ↔
    (∃ t, lookupKey s.tools name = some t ∧ tag ∈ t.tagList)

def BucketsNonempty (m : List (String × List String)) : Prop :=
  ∀ p ∈ m, p.2 ≠ ([] : List String)

/-- The registry well-formedness carried through the reachability induction. -/
def RegWF (s : RegState) : Prop :=
  (s.tools.map Prod.fst).Nodup ∧ (s.tags.map Prod.fst).Nodup ∧
  TagMembership s ∧ BucketsNonempty s.tags

theorem regWF_empty : RegWF emptyRegistry := by
  refine ⟨by simp [emptyRegistry], by simp [emptyRegistry], ?_, ?_⟩
  · intro tag name
    simp [emptyRegistry, lookupKey]
  · intro p hp
    simp [emptyRegistry] at hp

theorem lookupKey_addTagFor (m : List (String × List String)) (tg nm tag x : String) :
    (∃ b, lookupKey (addTagFor m tg nm) tag = some b ∧ x ∈ b) ↔
    ((∃ b, lookupKey m tag = some b ∧ x ∈ b) ∨ (tag = tg ∧ x = nm)) := by
  unfold addTagFor
  cases hb : lookupKey m tg with
  | none =>
      constructor
      · rintro ⟨b, hlk, hx⟩
        rw [lookupKey_setKey] at hlk
        by_cases htag : tg = tag
        · subst htag
          rw [if_pos rfl] at hlk
          injection hlk with hlk
          subst hlk
          simp only [List.mem_singleton] at hx
          exact Or.inr ⟨rfl, hx⟩
        · rw [if_neg htag] at hlk
          exact Or.inl ⟨b, hlk, hx⟩
      · rintro (⟨b, hlk, hx⟩ | ⟨h1, h2⟩)
        · by_cases htag : tg = tag
          · subst htag
            rw [hb] at hlk
            cases hlk
          · exact ⟨b, by rw [lookupKey_setKey, if_neg htag]; exact hlk, hx⟩
        · subst h1
          subst h2
          exact ⟨[x], by rw [lookupKey_setKey, if_pos rfl], List.mem_singleton.mpr rfl⟩
  | some b0 =>
      simp only []
      by_cases hmem : nm ∈ b0
      · rw [if_pos hmem]
        constructor
        · intro hex
          exact Or.inl hex
        · rintro (hex | ⟨h1, h2⟩)
          · exact hex
          · subst h1
            subst h2
            exact ⟨b0, hb, hmem⟩
      · rw [if_neg hmem]
        constructor
        · rintro ⟨b, hlk, hx⟩
          rw [lookupKey_setKey] at hlk
          by_cases htag : tg = tag
          · subst htag
            rw [if_pos rfl] at hlk
            injection hlk with hlk
            subst hlk
            rcases List.mem_append.mp hx with h1 | h1
            · exact Or.inl ⟨b0, hb, h1⟩
            · simp only [List.mem_singleton] at h1
              exact Or.inr ⟨rfl, h1⟩
          · rw [if_neg htag] at hlk
            exact Or.inl ⟨b, hlk, hx⟩
        · rintro (⟨b, hlk, hx⟩ | ⟨h1, h2⟩)
          · by_cases htag : tg = tag
            · subst htag
              rw [hb] at hlk
              injection hlk with hlk
              subst hlk
              exact ⟨b0 ++ [nm], by rw [lookupKey_setKey, if_pos rfl],
                List.mem_append.mpr (Or.inl hx)⟩
            · exact ⟨b, by rw [lookupKey_setKey, if_neg htag]; exact hlk, hx⟩
          · subst h1
            subst h2
            exact ⟨b0 ++ [x], by rw [lookupKey_setKey, if_pos rfl],
              List.mem_append.mpr (Or.inr (List.mem_singleton.mpr rfl))⟩

theorem lookupKey_addTagFold (ts : List String) (m : List (String × List String))
    (nm tag x : String) :
    (∃ b, lookupKey (ts.foldl (fun acc tg => addTagFor acc tg nm) m) tag = some b ∧ x ∈ b) ↔
    ((∃ b, lookupKey m tag = some b ∧ x ∈ b) ∨ (tag ∈ ts ∧ x = nm)) := by
  induction ts generalizing m with
  | nil => simp
  | cons t0 rest ih =>
      rw [List.foldl_cons, ih, lookupKey_addTagFor]
      simp only [List.mem_cons]
      constructor
      · rintro ((hex | ⟨h1, h2⟩) | ⟨h1, h2⟩)
        · exact Or.inl hex
        · exact Or.inr ⟨Or.inl h1, h2⟩
        · exact Or.inr ⟨Or.inr h1, h2⟩
      · rintro (hex | ⟨(h1 | h1), h2⟩)
        · exact Or.inl (Or.inl hex)
        · exact Or.inl (Or.inr ⟨h1, h2⟩)
        · exact Or.inr ⟨h1, h2⟩

theorem addTagFor_keys_nodup {m : List (String × List String)} (tg nm : String)
    (h : (m.map Prod.fst).Nodup) : ((addTagFor m tg nm).map Prod.fst).Nodup := by
  unfold addTagFor
  cases lookupKey m tg with
  | none => exact nodup_keys_setKey _ _ h
  | some b0 =>
      simp only []
      by_cases hmem : nm ∈ b0
      · rw [if_pos hmem]
        exact h
      · rw [if_neg hmem]
        exact nodup_keys_setKey _ _ h

theorem addTagFold_keys_nodup (ts : List String) {m : List (String × List String)}
    (nm : String) (h : (m.map Prod.fst).Nodup) :
    (((ts.foldl (fun acc tg => addTagFor acc tg nm) m)).map Prod.fst).Nodup := by
  induction ts generalizing m with
  | nil => exact h
  | cons t0 rest ih =>
      rw [List.foldl_cons]
      exact ih (addTagFor_keys_nodup _ _ h)

theorem addTagFor_nonempty {m : List (String × List String)} (tg nm : String)
    (h : BucketsNonempty m) : BucketsNonempty (addTagFor m tg nm) := by
  unfold addTagFor
  cases lookupKey m tg with
  | none =>
      intro p hp
      rcases mem_setKey hp with h1 | h1
      · exact h p h1
      · rw [h1]
        simp
  | some b0 =>
      simp only []
      by_cases hmem : nm ∈ b0
      · rw [if_pos hmem]
        exact h
      · rw [if_neg hmem]
        intro p hp
        rcases mem_setKey hp with h1 | h1
        · exact h p h1
        · rw [h1]
          simp

theorem addTagFold_nonempty (ts : List String) {m : List (String × List String)}
    (nm : String) (h : BucketsNonempty m) :
    BucketsNonempty (ts.foldl (fun acc tg => addTagFor acc tg nm) m) := by
  induction ts generalizing m with
  | nil => exact h
  | cons t0 rest ih =>
      rw [List.foldl_cons]
      exact ih (addTagFor_nonempty _ _ h)

theorem regWF_registerTool (s : RegState) (t : Tool) (h : RegWF s) :
    RegWF (registerTool s t).1 := by
  rcases hreg : registerTool s t with ⟨s', r⟩
  cases r with
  | error e =>
      have hs := registerTool_error_state hreg
      subst hs
      exact h
  | ok v =>
      obtain ⟨hval, hfresh, htools, htags⟩ := registerTool_ok_facts hreg
      obtain ⟨hnd1, hnd2, hmemb, hne⟩ := h
      refine ⟨?_, ?_, ?_, ?_⟩
      · rw [htools]
        exact nodup_keys_setKey _ _ hnd1
      · rw [htags]
        exact addTagFold_keys_nodup _ _ hnd2
      · intro tag x
        rw [htags, htools]
        rw [lookupKey_addTagFold]
        rw [hmemb tag x]
        unfold hasTool at hfresh
        have hfresh' : lookupKey s.tools v.name = none := by
          cases hlk : lookupKey s.tools v.name with
          | none => rfl
          | some w => rw [hlk] at hfresh; cases hfresh
        constructor
        · rintro (⟨t1, hlk, htg⟩ | ⟨h1, h2⟩)
          · refine ⟨t1, ?_, htg⟩
            rw [lookupKey_setKey]
            by_cases hx : v.name = x
            · rw [← hx] at hlk
              rw [hfresh'] at hlk
              cases hlk
            · rw [if_neg hx]
              exact hlk
          · subst h2
            exact ⟨v, by rw [lookupKey_setKey, if_pos rfl], h1⟩
        · rintro ⟨t1, hlk, htg⟩
          rw [lookupKey_setKey] at hlk
          by_cases hx : v.name = x
          · rw [if_pos hx] at hlk
            injection hlk with hlk
            subst hlk
            exact Or.inr ⟨htg, hx.symm⟩
          · rw [if_neg hx] at hlk
            exact Or.inl ⟨t1, hlk, htg⟩
      · rw [htags]
        exact addTagFold_nonempty _ _ hne

theorem regWF_registerTools (s : RegState) (ts : List Tool) (h : RegWF s) :
    RegWF (registerTools s ts).1 := by
  induction ts generalizing s with
  | nil => exact h
  | cons t tl ih =>
      have h1 : RegWF (registerTool s t).1 := regWF_registerTool s t h
      unfold registerTools
      rcases hreg : registerTool s t with ⟨s1, r⟩
      rw [hreg] at h1
      cases r with
      | error e => exact h1
      | ok v =>
          have h2 := ih s1 h1
          simp only []
          rcases hrest : registerTools s1 tl with ⟨s2, r2⟩
          cases r2 with
          | ok vs =>
              rw [hrest] at h2
              show RegWF s2
              exact h2
          | error e =>
              rw [hrest] at h2
              show RegWF s2
              exact h2

theorem scrubFold_keys_nodup (ts : List String) {m : List (String × List String)}
    (nm : String) (h : (m.map Prod.fst).Nodup) :
    ((ts.foldl (fun acc tg => scrubTag acc nm tg) m).map Prod.fst).Nodup := by
  induction ts generalizing m with
  | nil => exact h
  | cons t0 rest ih =>
      rw [List.foldl_cons]
      exact ih (scrubTag_keys_nodup _ _ h)

theorem scrubTag_nonempty {m : List (String × List String)} (nm tg : String)
    (h : BucketsNonempty m) : BucketsNonempty (scrubTag m nm tg) := by
  unfold scrubTag
  cases lookupKey m tg with
  | none => exact h
  | some b =>
      simp only []
      by_cases hemp : (b.filter fun x => x ≠ nm).isEmpty
      · simp only [hemp, if_true]
        intro p hp
        exact h p (mem_delKey hp)
      · simp only [hemp, Bool.false_eq_true, if_false]
        intro p hp
        rcases mem_setKey hp with h1 | h1
        · exact h p h1
        · rw [h1]
          simp only []
          intro hcontra
          rw [hcontra] at hemp
          simp at hemp

theorem scrubFold_nonempty (ts : List String) {m : List (String × List String)}
    (nm : String) (h : BucketsNonempty m) :
    BucketsNonempty (ts.foldl (fun acc tg => scrubTag acc nm tg) m) := by
  induction ts generalizing m with
  | nil => exact h
  | cons t0 rest ih =>
      rw [List.foldl_cons]
      exact ih (scrubTag_nonempty _ _ h)

theorem regWF_unregisterTool (s : RegState) (n : String) (h : RegWF s) :
    RegWF (unregisterTool s n).1 := by
  obtain ⟨hnd1, hnd2, hmemb, hne⟩ := h
  unfold unregisterTool
  cases hlk : lookupKey s.tools n with
  | none => exact ⟨hnd1, hnd2, hmemb, hne⟩
  | some tool =>
      simp only []
      refine ⟨nodup_keys_delKey _ hnd1, scrubFold_keys_nodup _ _ hnd2, ?_,
        scrubFold_nonempty _ _ hne⟩
      intro tag x
      rw [lookupKey_scrubFold _ _ _ _ hnd2]
      by_cases htag : tag ∈ tool.tagList
      · rw [if_pos htag]
        cases hb : lookupKey s.tags tag with
        | none =>
            simp only []
            constructor
            · rintro ⟨b, hcontra, -⟩
              cases hcontra
            · rintro ⟨t1, hlk1, htg1⟩
              by_cases hx : n = x
              · rw [← hx, lookupKey_delKey_self _ hnd1] at hlk1
                cases hlk1
              · rw [lookupKey_delKey_ne _ hx] at hlk1
                obtain ⟨b, hcontra, -⟩ := (hmemb tag x).mpr ⟨t1, hlk1, htg1⟩
                rw [hb] at hcontra
                cases hcontra
        | some b =>
            simp only []
            by_cases hemp : (b.filter fun y => y ≠ n).isEmpty
            · simp only [hemp, if_true]
              constructor
              · rintro ⟨b1, hcontra, -⟩
                cases hcontra
              · rintro ⟨t1, hlk1, htg1⟩
                by_cases hx : n = x
                · rw [← hx, lookupKey_delKey_self _ hnd1] at hlk1
                  cases hlk1
                · rw [lookupKey_delKey_ne _ hx] at hlk1
                  obtain ⟨b2, hb2, hxb2⟩ := (hmemb tag x).mpr ⟨t1, hlk1, htg1⟩
                  rw [hb] at hb2
                  injection hb2 with hb2
                  subst hb2
                  rw [List.isEmpty_iff] at hemp
                  have := List.filter_eq_nil_iff.mp hemp x hxb2
                  simp at this
                  exact absurd this.symm hx
            · simp only [hemp, Bool.false_eq_true, if_false]
              constructor
              · rintro ⟨b1, hsome, hxb1⟩
                injection hsome with hsome
                subst hsome
                rw [List.mem_filter] at hxb1
                obtain ⟨hxb, hxn⟩ := hxb1
                rw [decide_eq_true_eq] at hxn
                obtain ⟨t1, hlk1, htg1⟩ := (hmemb tag x).mp ⟨b, hb, hxb⟩
                refine ⟨t1, ?_, htg1⟩
                rw [lookupKey_delKey_ne _ (fun hcontra => hxn hcontra.symm)]
                exact hlk1
              · rintro ⟨t1, hlk1, htg1⟩
                by_cases hx : n = x
                · rw [← hx, lookupKey_delKey_self _ hnd1] at hlk1
                  cases hlk1
                · rw [lookupKey_delKey_ne _ hx] at hlk1
                  obtain ⟨b2, hb2, hxb2⟩ := (hmemb tag x).mpr ⟨t1, hlk1, htg1⟩
                  rw [hb] at hb2
                  injection hb2 with hb2
                  subst hb2
                  refine ⟨b.filter fun y => y ≠ n, rfl, ?_⟩
                  rw [List.mem_filter]
                  exact ⟨hxb2, decide_eq_true_eq.mpr (fun hcontra => hx hcontra.symm)⟩
      · rw [if_neg htag]
        rw [hmemb tag x]
        constructor
        · rintro ⟨t1, hlk1, htg1⟩
          by_cases hx : n = x
          · rw [← hx] at hlk1
            rw [hlk] at hlk1
            injection hlk1 with hlk1
            subst hlk1
            exact absurd htg1 htag
          · refine ⟨t1, ?_, htg1⟩
            rw [lookupKey_delKey_ne _ hx]
            exact hlk1
        · rintro ⟨t1, hlk1, htg1⟩
          by_cases hx : n = x
          · rw [← hx, lookupKey_delKey_self _ hnd1] at hlk1
            cases hlk1
          · rw [lookupKey_delKey_ne _ hx] at hlk1
            exact ⟨t1, hlk1, htg1⟩

theorem regWF_reachable {s : RegState} (h : Reachable s) : RegWF s := by
  induction h with
  | empty => exact regWF_empty
  | register s t hr ih => exact regWF_registerTool s t ih
  | registerMany s ts hr ih => exact regWF_registerTools s ts ih
  | unregister s n hr ih => exact regWF_unregisterTool s n ih
  | clearStep s hr ih => exact regWF_empty

/-- Claim C2: in every registry state reachable by any sequence of
`registerTool`, `registerTools`, `unregisterTool` and `clear` operations, a
name is in the bucket of tag `t` exactly when a tool of that name is
registered and lists `t` among its tags, and no bucket is ever empty. -/
theorem claim2_theorem (s : RegState) (h : Reachable s) :
    TagMembership s ∧ ∀ tag b, lookupKey s.tags tag = some b → b ≠ [] := by
  have hwf := regWF_reachable h
  exact ⟨hwf.2.2.1, fun tag b hb => hwf.2.2.2 _ (lookupKey_some_mem hb)⟩

def c2Tool : Tool :=
  { name := "sendEmail", description := "sends an email", parameters := none,
    requiredParameters := none, returns := none, tags := some ["mail", "io"],
    examples := none, metadata := none }

theorem claim2_witness :
    TagMembership (registerTool emptyRegistry c2Tool).1 ∧
    ∀ tag b, lookupKey (registerTool emptyRegistry c2Tool).1.tags tag = some b →
      b ≠ [] :=
  claim2_theorem _ (Reachable.register emptyRegistry c2Tool Reachable.empty)

/-! ## Key-presence lemmas for the converter output -/

theorem JObj.hasKey_append : ∀ (a b : JObj) (k : String),
    (JObj.append a b).hasKey k = (a.hasKey k || b.hasKey k)
  | .nil, b, k => by simp [JObj.append, JObj.hasKey]
  | .cons k2 v tl, b, k => by
      by_cases hk : k2 = k
      · simp [JObj.append, JObj.hasKey, hk]
      · simp [JObj.append, JObj.hasKey, hk, JObj.hasKey_append tl b k]

theorem hasKey_jopt_self (o : Option α) (k : String) (f : α → Json) :
    (jopt o k f).hasKey k = o.isSome := by
  cases o <;> simp [jopt, JObj.hasKey]

theorem hasKey_jopt_ne (o : Option α) {k k' : String} (f : α → Json) (h : ¬ k = k') :
    (jopt o k f).hasKey k' = false := by
  cases o <;> simp [jopt, JObj.hasKey, h]

theorem hasKey_joptTruthyStr_self (o : Option String) (k : String) :
    ((joptTruthyStr o k).hasKey k = true) ↔ (∃ s, o = some s ∧ s ≠ "") := by
  cases o with
  | none => simp [joptTruthyStr, JObj.hasKey]
  | some s =>
      by_cases hs : s = ""
      · simp [joptTruthyStr, JObj.hasKey, hs]
      · simp [joptTruthyStr, JObj.hasKey, hs]

theorem hasKey_joptTruthyStr_ne (o : Option String) {k k' : String} (h : ¬ k = k') :
    (joptTruthyStr o k).hasKey k' = false := by
  cases o with
  | none => simp [joptTruthyStr, JObj.hasKey]
  | some s =>
      by_cases hs : s = ""
      · simp [joptTruthyStr, JObj.hasKey, hs]
      · simp [joptTruthyStr, JObj.hasKey, hs, h]

/-- C1 (amended): in every converted parameter object, at every nesting depth,
each variant-specific optional field is emitted exactly when present in the
source parameter, with one exception forced by the code: the string variant's
`pattern` is guarded by JS truthiness, so a present-but-empty `pattern` is
omitted; and the object variant's `properties` key is always emitted (as the
empty object when absent).  Absent fields are never materialised. -/
theorem claim1_theorem (p : Param) (j : Json) (h : parameterToJsonSchema p = some j) :
    (∀ n d r format minLength maxLength pattern en df,
      p = .str n d r format minLength maxLength pattern en df →
      j.hasKey "format" = format.isSome ∧
      j.hasKey "minLength" = minLength.isSome ∧
      j.hasKey "maxLength" = maxLength.isSome ∧
      (j.hasKey "pattern" = true ↔ ∃ s, pattern = some s ∧ s ≠ "") ∧
      j.hasKey "enum" = en.isSome ∧
      j.hasKey "default" = df.isSome) ∧
    (∀ n d r minimum maximum multipleOf format df,
      p = .num n d r minimum maximum multipleOf format df →
      j.hasKey "minimum" = minimum.isSome ∧
      j.hasKey "maximum" = maximum.isSome ∧
      j.hasKey "multipleOf" = multipleOf.isSome ∧
      j.hasKey "format" = format.isSome ∧
      j.hasKey "default" = df.isSome) ∧
    (∀ n d r df,
      p = .bool n d r df →
      j.hasKey "default" = df.isSome) ∧
    (∀ n d r items minItems maxItems uniqueItems df,
      p = .arr n d r items minItems maxItems uniqueItems df →
      j.hasKey "items" = true ∧
      j.hasKey "minItems" = minItems.isSome ∧
      j.hasKey "maxItems" = maxItems.isSome ∧
      j.hasKey "uniqueItems" = uniqueItems.isSome ∧
      j.hasKey "default" = df.isSome) ∧
    (∀ n d r properties requiredProps additionalProperties df,
      p = .obj n d r properties requiredProps additionalProperties df →
      j.hasKey "properties" = true ∧
      j.hasKey "required" = requiredProps.isSome ∧
      j.hasKey "additionalProperties" = additionalProperties.isSome ∧
      j.hasKey "default" = df.isSome) := by
  refine ⟨?_, ?_, ?_, ?_, ?_⟩
  · intro n d r format minLength maxLength pattern en df hp
    subst hp
    simp only [parameterToJsonSchema] at h
    injection h with h
    subst h
    refine ⟨?_, ?_, ?_, ?_, ?_, ?_⟩
    · simp [Json.hasKey, JObj.concatList, JObj.hasKey_append, JObj.hasKey,
        hasKey_jopt_self, hasKey_jopt_ne, hasKey_joptTruthyStr_ne]
    · simp [Json.hasKey, JObj.concatList, JObj.hasKey_append, JObj.hasKey,
        hasKey_jopt_self, hasKey_jopt_ne, hasKey_joptTruthyStr_ne]
    · simp [Json.hasKey, JObj.concatList, JObj.hasKey_append, JObj.hasKey,
        hasKey_jopt_self, hasKey_jopt_ne, hasKey_joptTruthyStr_ne]
    · rw [← hasKey_joptTruthyStr_self pattern "pattern"]
      simp [Json.hasKey, JObj.concatList, JObj.hasKey_append, JObj.hasKey,
        hasKey_jopt_self, hasKey_jopt_ne, hasKey_joptTruthyStr_ne]
    · simp [Json.hasKey, JObj.concatList, JObj.hasKey_append, JObj.hasKey,
        hasKey_jopt_self, hasKey_jopt_ne, hasKey_joptTruthyStr_ne]
    · simp [Json.hasKey, JObj.concatList, JObj.hasKey_append, JObj.hasKey,
        hasKey_jopt_self, hasKey_jopt_ne, hasKey_joptTruthyStr_ne]
  · intro n d r minimum maximum multipleOf format df hp
    subst hp
    simp only [parameterToJsonSchema] at h
    injection h with h
    subst h
    refine ⟨?_, ?_, ?_, ?_, ?_⟩ <;>
      simp [Json.hasKey, JObj.concatList, JObj.hasKey_append, JObj.hasKey,
        hasKey_jopt_self, hasKey_jopt_ne]
  · intro n d r df hp
    subst hp
    simp only [parameterToJsonSchema] at h
    injection h with h
    subst h
    simp [Json.hasKey, JObj.concatList, JObj.hasKey_append, JObj.hasKey,
      hasKey_jopt_self, hasKey_jopt_ne]
  · intro n d r items minItems maxItems uniqueItems df hp
    subst hp
    rw [parameterToJsonSchema.eq_def] at h
    simp only [] at h
    split at h
    · cases h
    · rename_i it
      split at h
      · cases h
      · rename_i itemsJson heq2
        injection h with h
        subst h
        refine ⟨?_, ?_, ?_, ?_, ?_⟩ <;>
          simp [Json.hasKey, JObj.concatList, JObj.hasKey_append, JObj.hasKey,
            hasKey_jopt_self, hasKey_jopt_ne]
  · intro n d r properties requiredProps additionalProperties df hp
    subst hp
    rw [parameterToJsonSchema.eq_def] at h
    simp only [] at h
    cases hm : propsOptToJsonSchema properties with
    | none =>
        rw [hm] at h
        cases h
    | some propsJson =>
        rw [hm] at h
        injection h with h
        subst h
        refine ⟨?_, ?_, ?_, ?_⟩ <;>
          simp [Json.hasKey, JObj.concatList, JObj.hasKey_append, JObj.hasKey,
            hasKey_jopt_self, hasKey_jopt_ne]

/-- The `pattern` projection of a string parameter. -/
def Param.patternOf : Param → Option String
  | .str _ _ _ _ _ _ pattern _ _ => pattern
  | _ => none

/-- A string parameter carrying a present-but-empty `pattern` and a present
`minLength`. -/
def c1wParam : Param :=
  Param.str "q" "a query" false none (some 3) none (some "") none none

def c1wJson : Json :=
  match parameterToJsonSchema c1wParam with
  | some j => j
  | none => Json.null

theorem claim1_witness :
    parameterToJsonSchema c1wParam = some c1wJson ∧
    c1wJson.hasKey "minLength" = (some (3 : Rat)).isSome :=
  ⟨rfl, ((claim1_theorem c1wParam c1wJson rfl).1 _ _ _ _ _ _ _ _ _ rfl).2.1⟩

def c1Tool : Tool :=
  { name := "search", description := "searches",
    parameters := some (Props.cons "query" c1wParam Props.nil),
    requiredParameters := none, returns := none, tags := none,
    examples := none, metadata := none }

/-- Claim C1 counterexample: a tool whose string parameter carries the
present field `pattern = ""` converts to a parameter object with no
`pattern` key, so a present optional constraint field is not always
propagated. -/
theorem claim1_counterexample :
    c1wParam.patternOf = some "" ∧
    ((toolToJsonSchema c1Tool).bind (fun j => j.find "parameters")
      |>.bind (fun pj => pj.find "properties")
      |>.bind (fun props => props.find "query")
      |>.map (fun q => q.hasKey "pattern")) = some false :=
  ⟨rfl, rfl⟩

/-- Claim C6 (amended): whenever `toolToJsonSchema` returns a value, that
value has exactly the keys `name`, `description`, `parameters` (plus `returns`
exactly when the tool defines `returns`); `parameters` is
`type/properties/required` with `properties` built by converting each entry of
the tool's parameters and `required` equal to `requiredParameters ?? []`
verbatim, with no cross-check against `properties`.  The amendment adds the
proviso that the converter returns at all: on a registered tool containing a
nested array parameter (stripped of its `items` by validation) it throws —
see the counterexample. -/
theorem claim6_theorem (t : Tool) (j : Json) (h : toolToJsonSchema t = some j) :
    j.keys = ["name", "description", "parameters"] ++
      (match t.returns with | none => [] | some _ => ["returns"]) ∧
    j.find "name" = some (.str t.name) ∧
    j.find "description" = some (.str t.description) ∧
    (∃ props, propsOptToJsonSchema t.parameters = some props ∧
      j.find "parameters" = some (.obj (.cons "type" (.str "object")
        (.cons "properties" (.obj props)
          (.cons "required" (jsonStrList (t.requiredParameters.getD [])) .nil))))) ∧
    ((j.find "returns").isSome ↔ t.returns.isSome) ∧
    (∀ r, t.returns = some r → j.find "returns" = parameterToJsonSchema r) := by
  unfold toolToJsonSchema at h
  cases hm : propsOptToJsonSchema t.parameters with
  | none =>
      rw [hm] at h
      cases h
  | some props =>
      rw [hm] at h
      cases hr : t.returns with
      | none =>
          rw [hr] at h
          simp only [] at h
          injection h with h
          subst h
          refine ⟨?_, ?_, ?_, ⟨props, rfl, ?_⟩, ?_, ?_⟩
          · simp [Json.keys, JObj.keys]
          · simp [Json.find, JObj.find]
          · simp [Json.find, JObj.find]
          · simp [Json.find, JObj.find]
          · simp [Json.find, JObj.find]
          · intro r hcontra
            cases hcontra
      | some r =>
          rw [hr] at h
          simp only [] at h
          cases hc : parameterToJsonSchema r with
          | none =>
              rw [hc] at h
              cases h
          | some rj =>
              rw [hc] at h
              injection h with h
              subst h
              refine ⟨?_, ?_, ?_, ⟨props, rfl, ?_⟩, ?_, ?_⟩
              · simp [Json.keys, JObj.keys]
              · simp [Json.find, JObj.find]
              · simp [Json.find, JObj.find]
              · simp [Json.find, JObj.find]
              · simp [Json.find, JObj.find]
              · intro r2 hr2
                injection hr2 with hr2
                subst hr2
                simp [Json.find, JObj.find, hc]

theorem foldOk_of_ok : ∀ {ts : List Tool} {s s' : RegState} {vs : List Tool},
    registerTools s ts = (s', .ok vs) → foldOk s ts = some s' := by
  intro ts
  induction ts with
  | nil =>
      intro s s' vs h
      unfold registerTools at h
      simp only [Prod.mk.injEq] at h
      rw [foldOk, h.1]
  | cons t tl ih =>
      intro s s' vs h
      unfold registerTools at h
      split at h
      · simp only [Prod.mk.injEq] at h
        exact absurd h.2 (by simp)
      · rename_i s1 v heq
        split at h
        · rename_i s2 vs2 heq2
          simp only [Prod.mk.injEq] at h
          obtain ⟨hs, -⟩ := h
          subst hs
          simp only [foldOk]
          rw [heq]
          exact ih heq2
        · simp only [Prod.mk.injEq] at h
          exact absurd h.2 (by simp)

/-- Claim C5: `registerTools` registers the sequence in order (on success the
final state is the in-order fold of single registrations); when it fails, the
error is the one thrown by the first failing element, the final state is the
state after successfully registering exactly the preceding prefix (no
rollback: every earlier tool is still committed), and the failing and
subsequent elements are not registered. -/
theorem claim5_theorem (s : RegState) (ts : List Tool) :
    (∀ s' vs, registerTools s ts = (s', .ok vs) → foldOk s ts = some s') ∧
    (∀ s' e, registerTools s ts = (s', .error e) →
      ∃ k, ∃ hk : k < ts.length,
        foldOk s (ts.take k) = some s' ∧
        registerTool s' (ts.get ⟨k, hk⟩) = (s', .error e) ∧
        ∀ i, ∀ hi : i < k, ∃ v,
          validateTool (ts.get ⟨i, Nat.lt_trans hi hk⟩) = .ok v ∧
          hasTool s' v.name = true) :=
  ⟨fun _ _ h => foldOk_of_ok h, fun s' e h => registerTools_error_spec s ts s' e h⟩

def c5Tool : Tool :=
  { name := "alpha", description := "the alpha tool", parameters := none,
    requiredParameters := none, returns := none, tags := none,
    examples := none, metadata := none }

def c5State : RegState := (registerTool emptyRegistry c5Tool).1

theorem claim5_witness :
    foldOk emptyRegistry [c5Tool] = some c5State ∧
    (∃ k, ∃ hk : k < ([c5Tool, c5Tool] : List Tool).length,
      foldOk emptyRegistry (([c5Tool, c5Tool] : List Tool).take k) = some c5State ∧
      registerTool c5State (([c5Tool, c5Tool] : List Tool).get ⟨k, hk⟩) =
        (c5State, .error (.duplicateName "alpha")) ∧
      ∀ i, ∀ hi : i < k, ∃ v,
        validateTool (([c5Tool, c5Tool] : List Tool).get ⟨i, Nat.lt_trans hi hk⟩) = .ok v ∧
        hasTool c5State v.name = true) :=
  ⟨(claim5_theorem emptyRegistry [c5Tool]).1 c5State [c5Tool] rfl,
   (claim5_theorem emptyRegistry [c5Tool, c5Tool]).2 c5State (.duplicateName "alpha") rfl⟩

def c3Tool : Tool :=
  { name := "translate", description := "translates text",
    parameters := some (Props.cons "text"
      (Param.str "text" "the text" true none none none none none none) Props.nil),
    requiredParameters := some ["text"], returns := none, tags := some ["nlp"],
    examples := none, metadata := none }

theorem claim3_witness :
    (registerTool emptyRegistry c3Tool).2 = .ok c3Tool ∧
    getTool (registerTool emptyRegistry c3Tool).1 c3Tool.name = some c3Tool :=
  claim3_theorem emptyRegistry c3Tool c3Tool rfl rfl

theorem claim4_witness :
    registerTool c4State c4First = (c4State, .error (.duplicateName "fetch")) :=
  claim4_theorem c4State c4First c4First rfl rfl

def c7Corrupt : RegState := ⟨[], [("x", ["ghostTool"])]⟩

theorem claim7_witness :
    getToolsByTag emptyRegistry "missing" = .ok [] ∧
    (∃ n, n ∈ ["ghostTool"] ∧ lookupKey c7Corrupt.tools n = none ∧
      getToolsByTag c7Corrupt "x" = .error (.corruption n)) :=
  ⟨(claim7_theorem emptyRegistry "missing").1 rfl,
   (claim7_theorem c7Corrupt "x").2 ["ghostTool"] rfl
     ⟨"ghostTool", by simp, rfl⟩⟩

def c8Tool : Tool :=
  { name := "zip", description := "zips files", parameters := none,
    requiredParameters := none, returns := none, tags := some ["fs"],
    examples := none, metadata := none }

def c8State : RegState := (registerTool emptyRegistry c8Tool).1

theorem claim8_witness :
    unregisterTool c8State "nope" = (c8State, false) ∧
    (unregisterTool c8State "zip").2 = true ∧
    (unregisterTool c8State "zip").1.tools = delKey c8State.tools "zip" :=
  ⟨(claim8_theorem c8State "nope" (by decide)).1 rfl,
   ((claim8_theorem c8State "zip" (by decide)).2 c8Tool rfl).1,
   ((claim8_theorem c8State "zip" (by decide)).2 c8Tool rfl).2.1⟩

def c6wTool : Tool :=
  { name := "ping", description := "pings a host", parameters := none,
    requiredParameters := some ["host"], returns := none, tags := none,
    examples := none, metadata := none }

def c6wJson : Json :=
  match toolToJsonSchema c6wTool with
  | some j => j
  | none => Json.null

theorem claim6_witness :
    toolToJsonSchema c6wTool = some c6wJson ∧
    c6wJson.keys = ["name", "description", "parameters"] ∧
    c6wJson.find "name" = some (.str "ping") := by
  refine ⟨rfl, ?_, ?_⟩
  · have h := (claim6_theorem c6wTool c6wJson rfl).1
    simpa using h
  · have h := (claim6_theorem c6wTool c6wJson rfl).2.1
    simpa using h

def c6Tool : Tool :=
  { name := "batch", description := "runs batches",
    parameters := some (Props.cons "jobs"
      (Param.arr "jobs" "the jobs" false
        (some (Param.arr "steps" "the steps" false
          (some (Param.str "cmd" "a command" false none none none none none none))
          none none none none))
        none none none none)
      Props.nil),
    requiredParameters := none, returns := none, tags := none,
    examples := none, metadata := none }

def c6Stored : Tool :=
  { name := "batch", description := "runs batches",
    parameters := some (Props.cons "jobs"
      (Param.arr "jobs" "the jobs" false
        (some (Param.arr "steps" "the steps" false none none none none none))
        none none none none)
      Props.nil),
    requiredParameters := none, returns := none, tags := none,
    examples := none, metadata := none }

/-- Claim C6 counterexample: the array-of-array tool `batch` registers
successfully, yet `toolToJsonSchema` on the registered (validated) tool
throws instead of producing an output of the claimed shape, because
validation stripped the nested array's `items`. -/
theorem claim6_counterexample :
    (registerTool emptyRegistry c6Tool).2 = .ok c6Stored ∧
    hasTool (registerTool emptyRegistry c6Tool).1 "batch" = true ∧
    toolToJsonSchema c6Stored = none :=
  ⟨rfl, rfl, rfl⟩
